import Mathlib

/-!
Shallow embedding of the DrCov coverage-log parser (src/drcov.py and
src/base.py) and proofs about the behaviour its specification claims.

Conventions of the embedding:
* Python `bytes` values are `List Nat` (each element a byte value).
* Python `str` values are `List Char`.
* A fallible Python computation (one that can raise) is an `Option`;
  `none` stands for any raised exception aborting the parse.
* The input stream (`open(..., "rb")` / `io.BytesIO`) is a `ByteStream`:
  the full byte contents plus a read position.
* Machine integers read from the binary block table are `Nat` with the
  field widths coming from the explicit little-endian byte arithmetic;
  Python's unbounded `int` is `Int`.
-/

namespace Drcov

/-- ASCII byte list of a string literal (all source literals are ASCII). -/
def strBytes (s : String) : List Nat := s.data.map Char.toNat

/-- Character list of a string literal. -/
def strChars (s : String) : List Char := s.data

/-- Python `bytes.strip()` whitespace set: space, \t, \n, \r, \v, \f. -/
def isPySpaceByte (b : Nat) : Bool :=
  b = 32 || b = 9 || b = 10 || b = 13 || b = 11 || b = 12

/-- Python `bytes.strip()`: drop leading and trailing ASCII whitespace. -/
def pyStripBytes (bs : List Nat) : List Nat :=
  ((bs.dropWhile isPySpaceByte).reverse.dropWhile isPySpaceByte).reverse

/-- Python `str.strip(chars)`: drop every leading and every trailing
character that is a member of `cs` (each end independently). -/
def pyStripChars (cs : List Char) (s : List Char) : List Char :=
  ((s.dropWhile (fun c => cs.contains c)).reverse.dropWhile
    (fun c => cs.contains c)).reverse

/-- Value of an ASCII decimal digit byte. -/
def digitVal (b : Nat) : Option Nat :=
  if 48 ≤ b ∧ b ≤ 57 then some (b - 48) else none

/-- Value of an ASCII hexadecimal digit byte (0-9, a-f, A-F). -/
def hexVal (b : Nat) : Option Nat :=
  if 48 ≤ b ∧ b ≤ 57 then some (b - 48)
  else if 97 ≤ b ∧ b ≤ 102 then some (b - 87)
  else if 65 ≤ b ∧ b ≤ 70 then some (b - 55)
  else none

/-- Fold a non-empty digit list in the given base; `none` on a non-digit
or on an empty list (mirrors `int()` raising `ValueError`). -/
def parseDigits (base : Nat) (dv : Nat → Option Nat) : List Nat → Option Nat
  | [] => none
  | ds =>
    ds.foldl
      (fun acc b =>
        match acc, dv b with
        | some a, some d => some (a * base + d)
        | _, _ => none)
      (some 0)

/-- Python `int(b)` on bytes, base 10: optional surrounding whitespace,
optional sign, decimal digits.  (Digit-group underscores, which never
occur in drcov logs, are not modelled.) -/
def pyIntBytes (bs : List Nat) : Option Int :=
  match pyStripBytes bs with
  | 43 :: ds => (parseDigits 10 digitVal ds).map (fun n => (n : Int))
  | 45 :: ds => (parseDigits 10 digitVal ds).map (fun n => -(n : Int))
  | ds => (parseDigits 10 digitVal ds).map (fun n => (n : Int))

/-- Drop an optional `0x` / `0X` marker, as `int(_, 16)` accepts. -/
def dropHexMark : List Nat → List Nat
  | 48 :: 120 :: rest => rest
  | 48 :: 88 :: rest => rest
  | ds => ds

/-- Python `int(b, 16)` on bytes: optional whitespace, optional sign,
optional `0x` marker, hex digits. -/
def pyIntHexBytes (bs : List Nat) : Option Int :=
  match pyStripBytes bs with
  | 43 :: ds => (parseDigits 16 hexVal (dropHexMark ds)).map (fun n => (n : Int))
  | 45 :: ds => (parseDigits 16 hexVal (dropHexMark ds)).map (fun n => -(n : Int))
  | ds => (parseDigits 16 hexVal (dropHexMark ds)).map (fun n => (n : Int))

/-- Index of the first occurrence of `sep` as a contiguous sublist. -/
def findSub (sep : List Nat) : List Nat → Option Nat
  | [] => if sep.isEmpty then some 0 else none
  | x :: xs =>
    if List.isPrefixOf sep (x :: xs) then some 0
    else (findSub sep xs).map (fun i => i + 1)

/-- Python `bytes.split(sep)` for a non-empty separator, via explicit
fuel (`xs.length + 1` steps always suffice, each split consumes at least
one byte of input). -/
def splitOnFuel (sep : List Nat) : Nat → List Nat → List (List Nat)
  | 0, xs => [xs]
  | fuel + 1, xs =>
    match findSub sep xs with
    | none => [xs]
    | some i => xs.take i :: splitOnFuel sep fuel (xs.drop (i + sep.length))

/-- Python `bytes.split(sep)` (non-overlapping, left to right). -/
def splitOn (sep : List Nat) (xs : List Nat) : List (List Nat) :=
  splitOnFuel sep (xs.length + 1) xs

/-- Python 3 equality between a `bytes` value and a `str` value: the two
types never compare equal, whatever their contents.  This is the
semantics of `f.read(len(token)) == token` (line 276) and of
`text_entry != "module id, start, size:"` (line 296) in src/drcov.py,
where the left side is `bytes` and the right side is `str`. -/
def pyEqBytesStr (_ : List Nat) (_ : List Char) : Bool := false

/-- Python `bytes.decode()` modelled on the ASCII subset: every byte
below 128 maps to the corresponding character; non-ASCII content (where
UTF-8 decoding would differ) is out of scope of the claims and yields
`none`. -/
def pyDecode (bs : List Nat) : Option (List Char) :=
  if bs.all (fun b => b < 128) then some (bs.map Char.ofNat) else none

/-- `os.path.basename` (POSIX): the part of the path after the last
slash. -/
def basename (p : List Char) : List Char :=
  (p.reverse.takeWhile (fun c => !(c == Char.ofNat 47))).reverse

/-- Python `str.lower()`, character-wise (ASCII-faithful). -/
def pyLower (s : List Char) : List Char := s.map Char.toLower

/-- Python substring membership `needle in hay` on `str`. -/
def pyInStr (needle hay : List Char) : Bool :=
  (List.range (hay.length + 1)).any
    (fun i => List.isPrefixOf needle (hay.drop i))

/-! ### The input stream -/

/-- A seekable byte stream: the underlying data and the read position.
Models the `open(filepath, "rb")` / `io.BytesIO(data)` handles. -/
structure ByteStream where
  data : List Nat
  pos : Nat
deriving DecidableEq

/-- `f.read(n)`: up to `n` bytes from the current position. -/
def ByteStream.read (s : ByteStream) (n : Nat) : List Nat × ByteStream :=
  ((s.data.drop s.pos).take n, ⟨s.data, min (s.pos + n) s.data.length⟩)

/-- `f.readline()`: bytes up to and including the next newline (or to
the end of the data). -/
def ByteStream.readline (s : ByteStream) : List Nat × ByteStream :=
  let rest := s.data.drop s.pos
  match rest.findIdx? (fun b => b = 10) with
  | some i => (rest.take (i + 1), ⟨s.data, s.pos + i + 1⟩)
  | none => (rest, ⟨s.data, s.data.length⟩)

/-- `f.seek(p)` (absolute). -/
def ByteStream.seek (s : ByteStream) (p : Nat) : ByteStream := ⟨s.data, p⟩

/-! ### Data model -/

/-- `DrcovModule`: one module-table record.  All integer fields are
Python `int`s.  `end_` embeds the Python attribute `end` (a Lean
keyword); `offset` is only ever assigned by the v4 decoder and keeps
its zero default otherwise, like the dynamically-added Python
attribute. -/
structure DrcovModule where
  id : Int := 0
  base : Int := 0
  end_ : Int := 0
  size : Int := 0
  entry : Int := 0
  checksum : Int := 0
  timestamp : Int := 0
  path : List Char := []
  filename : List Char := []
  containing_id : Int := 0
  offset : Int := 0
deriving DecidableEq

/-- `DrcovBasicBlock`: the packed ctypes record
(uint32 offset, uint16 size, uint16 mod_id).  Fields are `Nat`s; the
width bounds come from the byte-wise decoding, proved where claimed. -/
structure DrcovBasicBlock where
  offset : Nat := 0
  size : Nat := 0
  mod_id : Nat := 0
deriving DecidableEq

/-- `ParsedModule` from src/base.py (the clean exposed object). -/
structure ParsedModule where
  id : Int
  filename : List Char
  base : Int
  end_ : Int
  size : Int
  checksum : Int
  path : List Char
  entry : Int
deriving DecidableEq

/-- `ParsedBasicBlock` from src/base.py. -/
structure ParsedBasicBlock where
  offset : Nat
  size : Nat
  mod_id : Nat
deriving DecidableEq

/-! ### Module record decoders (`DrcovModule._parse_module*`) -/

/-- The quote character stripped from filenames (`strip("'")`). -/
def quoteChar : Char := Char.ofNat 39

/-- Derive `filename` from a decoded `path`:
`os.path.basename(path).strip("'")`. -/
def filenameOf (path : List Char) : List Char :=
  pyStripChars [quoteChar] (basename path)

/-- `_parse_module_v1`: `id, size, path` (extra fields are ignored, as
positional indexing ignores them). -/
def parse_module_v1 (data : List (List Nat)) : Option DrcovModule :=
  match (data.get? 0).bind pyIntBytes, (data.get? 1).bind pyIntBytes,
        (data.get? 2).bind pyDecode with
  | some id, some size, some path =>
      some { id := id, size := size, path := path,
             filename := filenameOf path }
  | _, _, _ => none

/-- The `if len(data) == 7: checksum = int(data[i], 16); timestamp =
int(data[j], 16)` block shared by the v2/v3/v4 decoders; outside the
7-field case both attributes keep their zero defaults. -/
def readWinPair (data : List (List Nat)) (i j : Nat) : Option (Int × Int) :=
  if data.length = 7 then
    match (data.get? i).bind pyIntHexBytes,
          (data.get? j).bind pyIntHexBytes with
    | some c, some t => some (c, t)
    | _, _ => none
  else some (0, 0)

/-- `_parse_module_v2`: `id, base, end, entry, [checksum, timestamp,]
path`; the Windows pair is read iff the field count is 7; `path` is the
last field (`data[-1]`); `size = end - base`. -/
def parse_module_v2 (data : List (List Nat)) : Option DrcovModule :=
  match (data.get? 0).bind pyIntBytes, (data.get? 1).bind pyIntHexBytes,
        (data.get? 2).bind pyIntHexBytes, (data.get? 3).bind pyIntHexBytes,
        readWinPair data 4 5, data.getLast?.bind pyDecode with
  | some id, some base, some end_, some entry, some cs, some path =>
      some { id := id, base := base, end_ := end_, entry := entry,
             checksum := cs.1, timestamp := cs.2, path := path,
             size := end_ - base, filename := filenameOf path }
  | _, _, _, _, _, _ => none

/-- `_parse_module_v3`: v2 layout with `containing_id` as the second
field; the Windows pair is read iff the field count is 7. -/
def parse_module_v3 (data : List (List Nat)) : Option DrcovModule :=
  match (data.get? 0).bind pyIntBytes, (data.get? 1).bind pyIntBytes,
        (data.get? 2).bind pyIntHexBytes, (data.get? 3).bind pyIntHexBytes,
        (data.get? 4).bind pyIntHexBytes, readWinPair data 5 6,
        data.getLast?.bind pyDecode with
  | some id, some containing_id, some base, some end_, some entry,
    some cs, some path =>
      some { id := id, containing_id := containing_id, base := base,
             end_ := end_, entry := entry, checksum := cs.1,
             timestamp := cs.2, path := path, size := end_ - base,
             filename := filenameOf path }
  | _, _, _, _, _, _, _ => none

/-- `_parse_module_v4`: v3 layout with `offset` after `entry`.  The
source keeps the `len(data) == 7` test of v2/v3, so the branch fires on
the 7-field (non-Windows) v4 layout and then reads `data[6]` (the path)
as a hex checksum and the non-existent `data[7]` as a timestamp
(`data.get? 7 = none` embeds the `IndexError`). -/
def parse_module_v4 (data : List (List Nat)) : Option DrcovModule :=
  match (data.get? 0).bind pyIntBytes, (data.get? 1).bind pyIntBytes,
        (data.get? 2).bind pyIntHexBytes, (data.get? 3).bind pyIntHexBytes,
        (data.get? 4).bind pyIntHexBytes, (data.get? 5).bind pyIntHexBytes,
        readWinPair data 6 7, data.getLast?.bind pyDecode with
  | some id, some containing_id, some base, some end_, some entry,
    some offset, some cs, some path =>
      some { id := id, containing_id := containing_id, base := base,
             end_ := end_, entry := entry, offset := offset,
             checksum := cs.1, timestamp := cs.2, path := path,
             size := end_ - base, filename := filenameOf path }
  | _, _, _, _, _, _, _, _ => none

/-- `DrcovModule._parse_module`: split the entry line on `", "` and
dispatch on the table version. -/
def parse_module (module_line : List Nat) (version : Int) :
    Option DrcovModule :=
  let data := splitOn (strBytes ", ") module_line
  if version = 1 then parse_module_v1 data
  else if version = 2 then parse_module_v2 data
  else if version = 3 then parse_module_v3 data
  else if version = 4 then parse_module_v4 data
  else none

/-! ### Header and module-table parsing (`DrcovParser._parse_*`) -/

/-- The two leading header lines of `_parse_drcov_header`, before the
version assertion: `int(version_line.split(b":")[1])` and
`flavor_line.split(b":")[1]`.  (The stray `print` on line 187 has no
effect on the parse.) -/
def parse_drcov_header_fields (s : ByteStream) :
    Option (Int × List Nat × ByteStream) :=
  let r := s.readline
  let version_line := pyStripBytes r.1
  let r2 := r.2.readline
  let flavor_line := pyStripBytes r2.1
  match ((splitOn (strBytes ":") version_line).get? 1).bind pyIntBytes,
        (splitOn (strBytes ":") flavor_line).get? 1 with
  | some version, some flavor => some (version, flavor, r2.2)
  | _, _ => none

/-- `_parse_drcov_header` including the
`assert self.version == 2` check. -/
def parse_drcov_header (s : ByteStream) :
    Option (Int × List Nat × ByteStream) :=
  match parse_drcov_header_fields s with
  | some (version, flavor, s') =>
      if version = 2 then some (version, flavor, s') else none
  | none => none

/-- `_parse_module_table_header`: returns (table version, count).  The
`try`/`except ValueError` around the `", "` unpack is the legacy-v1
fallback; a version outside {2, 3, 4} in the new format is fatal. -/
def parse_module_table_header (s : ByteStream) :
    Option (Int × Int × ByteStream) :=
  let r := s.readline
  let header_line := pyStripBytes r.1
  match splitOn (strBytes ": ") header_line with
  | [_field_name, field_data] =>
    match splitOn (strBytes ", ") field_data with
    | [version_data, count_data] =>
      match splitOn (strBytes " ") version_data with
      | [_data_name, version_bytes] =>
        match pyIntBytes version_bytes with
        | some version =>
          if version = 2 ∨ version = 3 ∨ version = 4 then
            match splitOn (strBytes " ") count_data with
            | [_data_name2, count_bytes] =>
              match pyIntBytes count_bytes with
              | some count => some (version, count, r.2)
              | none => none
            | _ => none
          else none
        | none => none
      | _ => none
    | _ =>
      -- unpack of 'version X, count Y' raised ValueError: old v1 table
      match pyIntBytes field_data with
      | some count => some (1, count, r.2)
      | none => none
  | _ => none

/-- `_parse_module_table_columns`: no line for v1; otherwise a line that
must split on `": "` into exactly two pieces (the names are unused). -/
def parse_module_table_columns (version : Int) (s : ByteStream) :
    Option ByteStream :=
  if version = 1 then some s
  else
    let r := s.readline
    match splitOn (strBytes ": ") (pyStripBytes r.1) with
    | [_field_name, _field_data] => some r.2
    | _ => none

/-- `_parse_module_table_modules`: one `DrcovModule` per expected line
(`range(0, count)` iterations). -/
def parse_modules (n : Nat) (version : Int) (s : ByteStream) :
    Option (List DrcovModule × ByteStream) :=
  match n with
  | 0 => some ([], s)
  | n + 1 =>
    let r := s.readline
    match parse_module (pyStripBytes r.1) version with
    | some m =>
      match parse_modules n version r.2 with
      | some (ms, s') => some (m :: ms, s')
      | none => none
    | none => none

/-! ### Basic-block table parsing -/

/-- `_parse_bb_table_header`: parse `BB Table: <n> bbs`, then peek
`len("module id")` bytes, compare them against the `str` token
(`pyEqBytesStr`: in Python 3 a `bytes`/`str` comparison is always
unequal), and seek back to the saved position.  Returns
(count, bb_table_is_binary). -/
def parse_bb_table_header (s : ByteStream) :
    Option (Int × Bool × ByteStream) :=
  let r := s.readline
  let header_line := pyStripBytes r.1
  match splitOn (strBytes ": ") header_line with
  | [_field_name, field_data] =>
    match splitOn (strBytes " ") field_data with
    | [count_data, _data_name] =>
      match pyIntBytes count_data with
      | some count =>
        let saved_position := r.2.pos
        let rd := r.2.read (strChars "module id").length
        let bb_table_is_binary := !(pyEqBytesStr rd.1 (strChars "module id"))
        some (count, bb_table_is_binary, rd.2.seek saved_position)
      | none => none
    | _ => none
  | _ => none

/-- One packed 8-byte record at index `i` of the byte buffer filled by
`f.readinto`: 4-byte little-endian `offset`, 2-byte `size`, 2-byte
`mod_id`.  Short reads leave the ctypes array's zero initialisation in
place, which `getD _ 0` models. -/
def decode_bb_at (bytes : List Nat) (i : Nat) : DrcovBasicBlock :=
  { offset := bytes.getD (8 * i) 0 + 256 * bytes.getD (8 * i + 1) 0 +
      65536 * bytes.getD (8 * i + 2) 0 + 16777216 * bytes.getD (8 * i + 3) 0,
    size := bytes.getD (8 * i + 4) 0 + 256 * bytes.getD (8 * i + 5) 0,
    mod_id := bytes.getD (8 * i + 6) 0 + 256 * bytes.getD (8 * i + 7) 0 }

/-- The binary branch of `_parse_bb_table_entries`:
`f.readinto(self._raw_basic_blocks)` on a zero-initialised array of
`n` records.  `readinto` reads as many of the `8 * n` wanted bytes as
the stream still holds and its return value is ignored. -/
def read_binary_bbs (n : Nat) (s : ByteStream) :
    List DrcovBasicBlock × ByteStream :=
  let r := s.read (8 * n)
  ((List.range n).map (decode_bb_at r.1), r.2)

/-- `_parse_bb_table_entries`.  A negative declared count makes the
ctypes array allocation raise.  The text branch first requires
`text_entry != "module id, start, size:"` to be false, but that is a
`bytes`/`str` comparison which never holds in Python 3, so the branch
always raises `ValueError` (and even if it were passed, the `str`
regex applied to `bytes` lines would raise `TypeError`). -/
def parse_bb_table_entries (bb_table_is_binary : Bool) (count : Int)
    (s : ByteStream) : Option (List DrcovBasicBlock × ByteStream) :=
  if count < 0 then none
  else if bb_table_is_binary then some (read_binary_bbs count.toNat s)
  else
    let r := s.readline
    let text_entry := pyStripBytes r.1
    if pyEqBytesStr text_entry (strChars "module id, start, size:") then
      none
    else none

/-- `_parse_bb_table`: header (with encoding sniff) then entries. -/
def parse_bb_table (s : ByteStream) :
    Option (Int × Bool × List DrcovBasicBlock × ByteStream) :=
  match parse_bb_table_header s with
  | some (count, bb_table_is_binary, s') =>
    match parse_bb_table_entries bb_table_is_binary count s' with
    | some (bbs, s'') => some (count, bb_table_is_binary, bbs, s'')
    | none => none
  | none => none

/-! ### Aggregation, conversion and the full parse -/

/-- The loop body of `_generate_bb_hit_count_map`.  The Python dict of
dicts is modelled as a total function `mod_id → offset → count` whose
value is 0 exactly on the absent keys (every stored count is ≥ 1). -/
def bb_hit_step (hm : Nat → Nat → Nat) (bb : DrcovBasicBlock) :
    Nat → Nat → Nat :=
  fun mod_id offset =>
    if mod_id = bb.mod_id ∧ offset = bb.offset then hm mod_id offset + 1
    else hm mod_id offset

/-- `_generate_bb_hit_count_map`: one pass over the decoded blocks,
incrementing the counter keyed by `(mod_id, offset)`. -/
def generate_bb_hit_count_map (bbs : List DrcovBasicBlock) :
    Nat → Nat → Nat :=
  bbs.foldl bb_hit_step (fun _ _ => 0)

/-- The grouping key used by the hit-count map. -/
def bbKey (bb : DrcovBasicBlock) : Nat × Nat := (bb.mod_id, bb.offset)

/-- `_convert_to_parsed_objects`, module part. -/
def convert_module (m : DrcovModule) : ParsedModule :=
  { id := m.id, filename := m.filename, base := m.base, end_ := m.end_,
    size := m.size, checksum := m.checksum, path := m.path,
    entry := m.entry }

/-- `_convert_to_parsed_objects`, basic-block part. -/
def convert_bb (bb : DrcovBasicBlock) : ParsedBasicBlock :=
  { offset := bb.offset, size := bb.size, mod_id := bb.mod_id }

/-- The state a successful `parse()` leaves on the parser instance. -/
structure DrcovParseResult where
  version : Int
  flavor : List Nat
  module_table_version : Int
  module_table_count : Int
  modules : List DrcovModule
  bb_table_count : Int
  bb_table_is_binary : Bool
  basic_blocks : List DrcovBasicBlock
  parsed_modules : List ParsedModule
  parsed_basic_blocks : List ParsedBasicBlock
deriving DecidableEq

/-- `_parse_drcov_data` / `_parse_drcov_file` body: header, module
table, basic-block table, then object conversion.  The hit-count map of
the result is `generate_bb_hit_count_map result.basic_blocks`. -/
def parse_drcov_stream (s : ByteStream) : Option DrcovParseResult :=
  match parse_drcov_header s with
  | some (version, flavor, s1) =>
    match parse_module_table_header s1 with
    | some (mtv, mtc, s2) =>
      match parse_module_table_columns mtv s2 with
      | some s3 =>
        match parse_modules mtc.toNat mtv s3 with
        | some (mods, s4) =>
          match parse_bb_table s4 with
          | some (bbc, is_bin, bbs, _s5) =>
            some { version := version, flavor := flavor,
                   module_table_version := mtv, module_table_count := mtc,
                   modules := mods, bb_table_count := bbc,
                   bb_table_is_binary := is_bin, basic_blocks := bbs,
                   parsed_modules := mods.map convert_module,
                   parsed_basic_blocks := bbs.map convert_bb }
          | none => none
        | none => none
      | none => none
    | none => none
  | none => none

/-- `parse()` over an in-memory buffer (`io.BytesIO(drcov_data)`). -/
def parse_drcov_data (drcov_data : List Nat) : Option DrcovParseResult :=
  parse_drcov_stream ⟨drcov_data, 0⟩

/-! ### Module lookup and per-module queries -/

/-- One fuzzy-lookup pass of `get_module`: first module in table order
whose lowercased filename contains the lowercased query. -/
def first_fuzzy_match (module_name : List Char) :
    List ParsedModule → Option ParsedModule
  | [] => none
  | m :: rest =>
    if pyInStr (pyLower module_name) (pyLower m.filename) then some m
    else first_fuzzy_match module_name rest

/-- The strict-lookup loop of `get_module`: exact filename equality. -/
def first_exact_match (module_name : List Char) :
    List ParsedModule → Option ParsedModule
  | [] => none
  | m :: rest =>
    if module_name = m.filename then some m
    else first_exact_match module_name rest

/-- `module_name.split(".")[0]`: the text before the first dot (the
whole string when there is no dot). -/
def split_dot_head (module_name : List Char) : List Char :=
  module_name.takeWhile (fun c => !(c == Char.ofNat 46))

/-- `DrcovParser.get_module`. -/
def get_module (mods : List ParsedModule) (module_name : List Char)
    (fuzzy : Bool) : Option ParsedModule :=
  if fuzzy then
    match first_fuzzy_match module_name mods with
    | some m => some m
    | none =>
      let module_name' :=
        if module_name.contains (Char.ofNat 46) then
          split_dot_head module_name
        else module_name
      first_fuzzy_match module_name' mods
  else first_exact_match module_name mods

/-- The `ValueError` message of `get_blocks_by_module`
(`"No coverage for module '%s' in log"`). -/
def no_coverage_msg (module_name : List Char) : List Char :=
  strChars "No coverage for module " ++ (quoteChar :: module_name) ++
    (quoteChar :: strChars " in log")

/-- `DrcovParser.get_blocks_by_module`: resolve the name with the
(default, fuzzy) lookup; raise if unresolved, else filter the parsed
blocks by the resolved module id. -/
def get_blocks_by_module (mods : List ParsedModule)
    (blocks : List ParsedBasicBlock) (module_name : List Char) :
    Except (List Char) (List ParsedBasicBlock) :=
  match get_module mods module_name true with
  | none => Except.error (no_coverage_msg module_name)
  | some m => Except.ok (blocks.filter (fun bb => ((bb.mod_id : Int) == m.id)))

/-! ### Concrete inputs used by the theorems -/

/-- A basic-block table for the single logical block
(offset 0x10, size 4, mod 0), binary-encoded. -/
def binbb0 : ByteStream :=
  ⟨strBytes "BB Table: 1 bbs\n" ++ [16, 0, 0, 0, 4, 0, 0, 0], 0⟩

/-- The same single logical block (offset 0x10, size 4, mod 0),
text-encoded exactly as §4.4 of the spec describes. -/
def textbb0 : ByteStream :=
  ⟨strBytes "BB Table: 1 bbs\nmodule id, start, size:\nmodule[ 0]: 0x10, 4\n",
   0⟩

/-- A well-formed 7-field (non-Windows) v4 module line:
`id, containing_id, base, end, entry, offset, path`. -/
def v4line7 : List Nat :=
  strBytes "0, 0, 0x400000, 0x401000, 0x400010, 0x100, /bin/ls"

/-- A well-formed 9-field (Windows) v4 module line with checksum 0xab
and timestamp 0x5f0. -/
def v4line9 : List Nat :=
  strBytes "0, 0, 0x400000, 0x401000, 0x400010, 0x100, 0xab, 0x5f0, C:/app.exe"

/-- A v1 module line whose path component carries a single leading
quote character: `0, 4096, dir/'abc`. -/
def v1lineQuote : List Nat :=
  strBytes "0, 4096, dir/" ++ [39] ++ strBytes "abc"

/-- The module `parse_module v1lineQuote 1` produces. -/
def v1moduleQuote : DrcovModule :=
  { id := 0, size := 4096,
    path := strChars "dir/" ++ quoteChar :: strChars "abc",
    filename := strChars "abc" }

/-- The fields of `v1lineQuote`, as `_parse_module` passes them to
`_parse_module_v1`. -/
def v1fieldsQuote : List (List Nat) :=
  [strBytes "0", strBytes "4096", strBytes "dir/" ++ [39] ++ strBytes "abc"]

/-- A truncated binary block stream: 3 declared records but only the
8 bytes of the first record (offset 0x20, size 2, mod 1) present. -/
def truncbb0 : ByteStream := ⟨[32, 0, 0, 0, 2, 0, 1, 0], 0⟩

/-- A log header declaring version 3. -/
def hdr3 : ByteStream :=
  ⟨strBytes "DRCOV VERSION: 3\nDRCOV FLAVOR: drcov\n", 0⟩

/-! ### Claim theorems -/

/-- Claim C1.  The claim says the binary and the text encoding of the
same logical block sequence decode to identical BasicBlock sequences.
The code refutes it: the encoding sniff compares the peeked `bytes`
against a `str`, which is never equal in Python 3, so the text-encoded
table is classified binary and its ASCII bytes are reinterpreted as
packed records.  For the single block (offset 0x10, size 4, mod 0),
the binary form decodes to that block while the text form decodes to
the garbage record built from the bytes of `"module i"`. -/
theorem c1_bb_encodings_diverge :
    (parse_bb_table binbb0).map (fun r => r.2.2.1) =
      some [⟨16, 4, 0⟩] ∧
    (parse_bb_table textbb0).map (fun r => r.2.2.1) =
      some [⟨1969516397, 25964, 26912⟩] ∧
    ([⟨16, 4, 0⟩] : List DrcovBasicBlock) ≠ [⟨1969516397, 25964, 26912⟩] := by
  refine ⟨by rfl, by rfl, by decide⟩

/-- Claim C2.  The claim says the sniff classifies the table as
text-encoded iff the peeked bytes equal `module id`.  The code refutes
the classification part: on a stream whose next 9 bytes are exactly the
ASCII text `module id` it still reports a binary table
(`bytes == str` is always false in Python 3).  The
position-restoration part does hold: the returned stream is back at
position 16, where the peek started. -/
theorem c2_sniff_always_binary :
    parse_bb_table_header textbb0 = some (1, true, ⟨textbb0.data, 16⟩) ∧
    (textbb0.data.drop 16).take 9 = strBytes "module id" := by
  refine ⟨by rfl, by rfl⟩

/-- Claim C3.  The claim says decoding recovers every field for all
module-table versions 1-4.  The v4 decoder refutes it: on the
well-formed 7-field (non-Windows) v4 line the `len(data) == 7` branch
reads the path as a hex checksum and the absent `data[7]`, so decoding
raises instead of succeeding; on the 9-field Windows line the branch is
skipped and the encoded checksum 0xab (171) and timestamp 0x5f0 (1520)
are dropped, both decoding as 0. -/
theorem c3_v4_fields_lost :
    parse_module v4line7 4 = none ∧
    (parse_module v4line9 4).map (fun m => (m.checksum, m.timestamp)) =
      some (0, 0) ∧
    ((0 : Int), (0 : Int)) ≠ ((171 : Int), (1520 : Int)) := by
  refine ⟨by rfl, by rfl, by decide⟩

/-- Claim C4 counterexample.  The claim says a binary table declaring
`n` records over a stream with fewer than `n*8` bytes fails fatally.
The code refutes it: `readinto`'s return value is ignored, so a table
declaring 3 records over an 8-byte stream completes, returning the one
real record followed by two zero-filled records. -/
theorem c4_truncated_completes :
    parse_bb_table_entries true 3 truncbb0 =
      some ([⟨32, 2, 1⟩, ⟨0, 0, 0⟩, ⟨0, 0, 0⟩], ⟨truncbb0.data, 8⟩) := by
  rfl

/-! ### Helper lemmas about the binary block decoder -/

/-- A byte fetched with default 0 from a byte list stays below 256. -/
theorem getD_lt_256 (l : List Nat) (hwf : ∀ b ∈ l, b < 256) (i : Nat) :
    l.getD i 0 < 256 := by
  rcases Nat.lt_or_ge i l.length with hi | hi
  · rw [List.getD_eq_getElem l 0 hi]
    exact hwf _ (l.getElem_mem hi)
  · rw [List.getD_eq_default l 0 hi]
    omega

/-- A record that starts at or beyond the end of the filled buffer is
entirely the ctypes zero initialisation. -/
theorem decode_bb_at_zero (bytes : List Nat) (i : Nat)
    (h : bytes.length ≤ 8 * i) : decode_bb_at bytes i = ⟨0, 0, 0⟩ := by
  have h0 : ∀ k, bytes.getD (8 * i + k) 0 = 0 := fun k =>
    List.getD_eq_default bytes 0 (by omega)
  have h0' : bytes.getD (8 * i) 0 = 0 := List.getD_eq_default bytes 0 h
  unfold decode_bb_at
  rw [h0', h0 1, h0 2, h0 3, h0 4, h0 5, h0 6, h0 7]

/-- Field-width bounds of one decoded record over well-formed bytes. -/
theorem decode_bb_at_bounds (bytes : List Nat)
    (hwf : ∀ b ∈ bytes, b < 256) (i : Nat) :
    (decode_bb_at bytes i).offset < 4294967296 ∧
    (decode_bb_at bytes i).size < 65536 ∧
    (decode_bb_at bytes i).mod_id < 65536 := by
  have b0 := getD_lt_256 bytes hwf (8 * i)
  have b1 := getD_lt_256 bytes hwf (8 * i + 1)
  have b2 := getD_lt_256 bytes hwf (8 * i + 2)
  have b3 := getD_lt_256 bytes hwf (8 * i + 3)
  have b4 := getD_lt_256 bytes hwf (8 * i + 4)
  have b5 := getD_lt_256 bytes hwf (8 * i + 5)
  have b6 := getD_lt_256 bytes hwf (8 * i + 6)
  have b7 := getD_lt_256 bytes hwf (8 * i + 7)
  unfold decode_bb_at
  refine ⟨?_, ?_, ?_⟩ <;> simp only [] <;> omega

/-- The buffer `readinto` fills. -/
def read_buffer (n : Nat) (s : ByteStream) : List Nat :=
  (s.data.drop s.pos).take (8 * n)

/-- `read_binary_bbs` returns exactly the declared number of records. -/
theorem read_binary_bbs_length (n : Nat) (s : ByteStream) :
    ((read_binary_bbs n s).1).length = n := by
  simp [read_binary_bbs]

/-- The `i`-th record returned by `read_binary_bbs`. -/
theorem read_binary_bbs_get (n : Nat) (s : ByteStream) (i : Nat)
    (h : i < ((read_binary_bbs n s).1).length) :
    ((read_binary_bbs n s).1).get ⟨i, h⟩ = decode_bb_at (read_buffer n s) i := by
  have hi : i < n := by simpa [read_binary_bbs] using h
  simp [read_binary_bbs, ByteStream.read, read_buffer, List.get_eq_getElem]

/-- Every record returned by `read_binary_bbs` is a decoded slice of
the filled buffer. -/
theorem read_binary_bbs_mem (n : Nat) (s : ByteStream)
    (bb : DrcovBasicBlock) (h : bb ∈ (read_binary_bbs n s).1) :
    ∃ i, bb = decode_bb_at (read_buffer n s) i := by
  simp only [read_binary_bbs, ByteStream.read, List.mem_map,
    List.mem_range] at h
  obtain ⟨i, _, rfl⟩ := h
  exact ⟨i, rfl⟩

/-- The filled buffer never holds more bytes than the stream had left. -/
theorem read_buffer_length_le (n : Nat) (s : ByteStream) :
    (read_buffer n s).length ≤ s.data.length - s.pos := by
  simp [read_buffer]

/-- Bytes of the filled buffer come from the stream data. -/
theorem read_buffer_wf (n : Nat) (s : ByteStream)
    (hwf : ∀ b ∈ s.data, b < 256) : ∀ b ∈ read_buffer n s, b < 256 :=
  fun b hb => hwf b (List.mem_of_mem_drop (List.mem_of_mem_take hb))

/-- Claim C4, amended.  Truncated binary input (fewer than `n*8` bytes
left for `n` declared records) is not an error: the parse completes
with exactly `n` records, and every record lying entirely beyond the
bytes actually available keeps all fields zero. -/
theorem c4_truncated_zero_fills (n : Nat) (s : ByteStream)
    (_htrunc : s.data.length - s.pos < 8 * n) :
    ∃ bbs s', parse_bb_table_entries true (n : Int) s = some (bbs, s') ∧
      bbs.length = n ∧
      ∀ i (h : i < bbs.length), s.data.length - s.pos ≤ 8 * i →
        bbs.get ⟨i, h⟩ = ⟨0, 0, 0⟩ := by
  refine ⟨(read_binary_bbs n s).1, (read_binary_bbs n s).2, ?_, ?_, ?_⟩
  · simp [parse_bb_table_entries]
  · exact read_binary_bbs_length n s
  · intro i h hav
    rw [read_binary_bbs_get n s i h]
    exact decode_bb_at_zero _ i
      (le_trans (read_buffer_length_le n s) hav)

/-- Claim C4 amended, witness: the 3-record table over the 8-byte
stream `truncbb0` completes with records 1 and 2 zero-filled. -/
theorem c4_truncated_zero_fills_witness :
    ∃ bbs s', parse_bb_table_entries true ((3 : Nat) : Int) truncbb0 =
        some (bbs, s') ∧
      bbs.length = 3 ∧
      ∀ i (h : i < bbs.length),
        truncbb0.data.length - truncbb0.pos ≤ 8 * i →
        bbs.get ⟨i, h⟩ = ⟨0, 0, 0⟩ :=
  c4_truncated_zero_fills 3 truncbb0 (by decide)

/-- Claim C10.  For a binary block table of `n` declared records, the
decoded (and converted) block list has exactly `n` entries; every entry
has `offset` below 2^32 and `size`, `mod_id` below 2^16; and every
entry lying entirely beyond the bytes available in the stream has all
fields zero. -/
theorem c10_block_count_and_widths (n : Nat) (s : ByteStream)
    (hwf : ∀ b ∈ s.data, b < 256) :
    (((read_binary_bbs n s).1).map convert_bb).length = n ∧
    (∀ p ∈ ((read_binary_bbs n s).1).map convert_bb,
        p.offset < 4294967296 ∧ p.size < 65536 ∧ p.mod_id < 65536) ∧
    ∀ i (h : i < (((read_binary_bbs n s).1).map convert_bb).length),
      s.data.length - s.pos ≤ 8 * i →
      (((read_binary_bbs n s).1).map convert_bb).get ⟨i, h⟩ = ⟨0, 0, 0⟩ := by
  refine ⟨by simp [read_binary_bbs_length], ?_, ?_⟩
  · intro p hp
    obtain ⟨bb, hbb, rfl⟩ := List.mem_map.mp hp
    obtain ⟨i, rfl⟩ := read_binary_bbs_mem n s bb hbb
    exact decode_bb_at_bounds _ (read_buffer_wf n s hwf) i
  · intro i h hav
    have h' : i < ((read_binary_bbs n s).1).length := by simpa using h
    rw [List.get_map]
    rw [read_binary_bbs_get n s i h']
    rw [decode_bb_at_zero _ i (le_trans (read_buffer_length_le n s) hav)]
    rfl

/-- Claim C10, witness: 2 declared records over an 8-byte stream. -/
theorem c10_block_count_and_widths_witness :
    (((read_binary_bbs 2 ⟨[16, 0, 0, 0, 4, 0, 0, 0], 0⟩).1).map
        convert_bb).length = 2 ∧
    (∀ p ∈ ((read_binary_bbs 2 ⟨[16, 0, 0, 0, 4, 0, 0, 0], 0⟩).1).map
        convert_bb,
        p.offset < 4294967296 ∧ p.size < 65536 ∧ p.mod_id < 65536) ∧
    ∀ i (h : i < (((read_binary_bbs 2 ⟨[16, 0, 0, 0, 4, 0, 0, 0], 0⟩).1).map
        convert_bb).length),
      (⟨[16, 0, 0, 0, 4, 0, 0, 0], 0⟩ : ByteStream).data.length -
          (⟨[16, 0, 0, 0, 4, 0, 0, 0], 0⟩ : ByteStream).pos ≤ 8 * i →
      (((read_binary_bbs 2 ⟨[16, 0, 0, 0, 4, 0, 0, 0], 0⟩).1).map
          convert_bb).get ⟨i, h⟩ = ⟨0, 0, 0⟩ :=
  c10_block_count_and_widths 2 ⟨[16, 0, 0, 0, 4, 0, 0, 0], 0⟩ (by decide)

/-- Claim C6.  Whenever the two header lines parse and carry a log
version other than 2, the whole parse fails (the `assert` fires right
after the two header lines are read, so the module table and block
table are never decoded — the conclusion holds for every stream
continuation). -/
theorem c6_version_check_fatal (s : ByteStream) (v : Int) (fl : List Nat)
    (s' : ByteStream) (hfields : parse_drcov_header_fields s = some (v, fl, s'))
    (hv : v ≠ 2) : parse_drcov_stream s = none := by
  unfold parse_drcov_stream parse_drcov_header
  rw [hfields]
  simp [hv]

/-- Claim C6, witness: a log declaring `DRCOV VERSION: 3` fails. -/
theorem c6_version_check_fatal_witness : parse_drcov_stream hdr3 = none :=
  c6_version_check_fatal hdr3 3 (strBytes " drcov") ⟨hdr3.data, 37⟩
    (by rfl) (by decide)

/-! ### Hit-count aggregation (claim C5) -/

/-- Number of blocks in `bbs` carrying the key `(m, o)` — the "pair
occurring k times" measure of the claim. -/
def pairCount (bbs : List DrcovBasicBlock) (m o : Nat) : Nat :=
  (bbs.filter (fun bb => decide (bbKey bb = (m, o)))).length

/-- Occurrences of a key among the mapped keys, counted with the
equality-derived `BEq` instance (the one the library's dedup-sum lemma
is stated with). -/
def countKey (l : List (Nat × Nat)) (p : Nat × Nat) : Nat :=
  @List.count (Nat × Nat) instBEqOfDecidableEq p l

/-- Unrolling the hit-count fold over an arbitrary accumulator. -/
theorem hit_count_foldl (bbs : List DrcovBasicBlock)
    (init : Nat → Nat → Nat) (m o : Nat) :
    (bbs.foldl bb_hit_step init) m o = init m o + pairCount bbs m o := by
  induction bbs generalizing init with
  | nil => simp [pairCount]
  | cons b t ih =>
    rw [List.foldl_cons, ih]
    show bb_hit_step init b m o + pairCount t m o =
      init m o + pairCount (b :: t) m o
    unfold bb_hit_step pairCount
    rw [List.filter_cons]
    by_cases hb : b.mod_id = m ∧ b.offset = o
    · have hb' : m = b.mod_id ∧ o = b.offset := ⟨hb.1.symm, hb.2.symm⟩
      have hkey : (decide (bbKey b = (m, o))) = true := by
        simp [bbKey, hb.1, hb.2]
      rw [if_pos hb', hkey]
      simp only [if_true, List.length_cons]
      omega
    · have hb' : ¬(m = b.mod_id ∧ o = b.offset) := fun hc =>
        hb ⟨hc.1.symm, hc.2.symm⟩
      have hkey : (decide (bbKey b = (m, o))) = false := by
        simp only [bbKey, decide_eq_false_iff_not, Prod.mk.injEq]
        exact fun hc => hb hc
      rw [if_neg hb', hkey]
      simp

/-- Claim C5.  The hit-count aggregator maps every `(mod_id, offset)`
pair occurring `k ≥ 1` times to count `k`; summing the counts over the
distinct keys of the block list gives the total block count; and the
resulting map is invariant under permutations of the input. -/
theorem c5_hit_count_correct (bbs : List DrcovBasicBlock) :
    (∀ m o k, 1 ≤ k → pairCount bbs m o = k →
        generate_bb_hit_count_map bbs m o = k) ∧
    ((bbs.map bbKey).dedup.map
        (fun p => generate_bb_hit_count_map bbs p.1 p.2)).sum = bbs.length ∧
    (∀ bbs', bbs.Perm bbs' → ∀ m o,
        generate_bb_hit_count_map bbs m o =
          generate_bb_hit_count_map bbs' m o) := by
  have hmap : ∀ m o, generate_bb_hit_count_map bbs m o = pairCount bbs m o := by
    intro m o
    unfold generate_bb_hit_count_map
    rw [hit_count_foldl]
    simp
  refine ⟨fun m o k _ hk => by rw [hmap]; exact hk, ?_, ?_⟩
  · have hpt : ∀ p ∈ (bbs.map bbKey).dedup,
        generate_bb_hit_count_map bbs p.1 p.2 =
          countKey (bbs.map bbKey) p := by
      intro p _
      rw [hmap]
      unfold pairCount
      rw [← List.countP_eq_length_filter]
      have hc : (fun bb => decide (bbKey bb = (p.1, p.2))) =
          ((fun y => decide (y = p)) ∘ bbKey) := by
        funext bb
        simp [Function.comp]
      rw [hc, ← List.countP_map]
      rfl
    rw [List.map_congr_left hpt]
    have hs := List.sum_map_count_dedup_eq_length (bbs.map bbKey)
    simpa [countKey] using hs
  · intro bbs' hperm m o
    rw [hmap]
    unfold generate_bb_hit_count_map
    rw [hit_count_foldl]
    unfold pairCount
    simp [(hperm.filter _).length_eq]

/-- Claim C5, witness: the pair (mod 0, offset 16) occurs twice in a
three-block list and the aggregator reports 2 for it. -/
theorem c5_hit_count_correct_witness :
    generate_bb_hit_count_map [⟨16, 4, 0⟩, ⟨32, 8, 1⟩, ⟨16, 4, 0⟩] 0 16 = 2 :=
  (c5_hit_count_correct [⟨16, 4, 0⟩, ⟨32, 8, 1⟩, ⟨16, 4, 0⟩]).1 0 16 2
    (by decide) (by rfl)

/-! ### Fuzzy module lookup (claim C7) -/

/-- The fuzzy test `module_name.lower() in module.filename.lower()`. -/
def FuzzyMatches (q : List Char) (m : ParsedModule) : Prop :=
  pyInStr (pyLower q) (pyLower m.filename) = true

/-- `m` is the first module in table order that fuzzily matches `q`. -/
def IsFirstFuzzyMatch (q : List Char) (mods : List ParsedModule)
    (m : ParsedModule) : Prop :=
  ∃ pre post, mods = pre ++ m :: post ∧ FuzzyMatches q m ∧
    ∀ x ∈ pre, ¬ FuzzyMatches q x

/-- No module in the table fuzzily matches `q`. -/
def NoFuzzyMatch (q : List Char) (mods : List ParsedModule) : Prop :=
  ∀ x ∈ mods, ¬ FuzzyMatches q x

/-- `first_fuzzy_match` returns `some m` exactly on the first match. -/
theorem first_fuzzy_match_eq_some (q : List Char)
    (mods : List ParsedModule) (m : ParsedModule) :
    first_fuzzy_match q mods = some m ↔ IsFirstFuzzyMatch q mods m := by
  induction mods with
  | nil =>
    constructor
    · intro h
      exact Option.noConfusion h
    · rintro ⟨pre, post, h, -, -⟩
      have := congrArg List.length h
      simp at this
      exact absurd this (by omega)
  | cons a rest ih =>
    unfold first_fuzzy_match
    by_cases ha : pyInStr (pyLower q) (pyLower a.filename) = true
    · rw [if_pos ha]
      constructor
      · intro h
        obtain rfl : a = m := Option.some.inj h
        exact ⟨[], rest, rfl, ha, by simp⟩
      · rintro ⟨pre, post, heq, hm, hpre⟩
        cases pre with
        | nil =>
          obtain ⟨rfl, -⟩ : a = m ∧ rest = post := by
            simpa using heq
          rfl
        | cons p pre' =>
          obtain ⟨rfl, -⟩ : a = p ∧ rest = pre' ++ m :: post := by
            simpa using heq
          exact absurd ha (hpre a (by simp))
    · rw [if_neg ha, ih]
      constructor
      · rintro ⟨pre, post, heq, hm, hpre⟩
        refine ⟨a :: pre, post, by rw [heq]; rfl, hm, ?_⟩
        intro x hx
        rcases List.mem_cons.mp hx with rfl | hx
        · exact fun hc => ha hc
        · exact hpre x hx
      · rintro ⟨pre, post, heq, hm, hpre⟩
        cases pre with
        | nil =>
          obtain ⟨rfl, -⟩ : a = m ∧ rest = post := by
            simpa using heq
          exact absurd hm (fun hc => ha hc)
        | cons p pre' =>
          obtain ⟨rfl, htail⟩ : a = p ∧ rest = pre' ++ m :: post := by
            simpa using heq
          exact ⟨pre', post, htail, hm,
            fun x hx => hpre x (List.mem_cons_of_mem a hx)⟩

/-- `first_fuzzy_match` returns `none` exactly when nothing matches. -/
theorem first_fuzzy_match_eq_none (q : List Char)
    (mods : List ParsedModule) :
    first_fuzzy_match q mods = none ↔ NoFuzzyMatch q mods := by
  induction mods with
  | nil =>
    simp [first_fuzzy_match, NoFuzzyMatch]
  | cons a rest ih =>
    unfold first_fuzzy_match
    by_cases ha : pyInStr (pyLower q) (pyLower a.filename) = true
    · rw [if_pos ha]
      constructor
      · intro h
        exact Option.noConfusion h
      · intro h
        exact absurd ha (h a (by simp))
    · rw [if_neg ha, ih]
      constructor
      · intro h x hx
        rcases List.mem_cons.mp hx with rfl | hx
        · exact fun hc => ha hc
        · exact h x hx
      · intro h x hx
        exact h x (List.mem_cons_of_mem a hx)

/-- The query actually used by the fallback pass: the text before the
first dot when the query contains a dot, the query itself otherwise. -/
def fallback_query (q : List Char) : List Char :=
  if q.contains (Char.ofNat 46) then split_dot_head q else q

/-- Claim C7.  Fuzzy lookup returns the first module in table order
whose lowercased filename contains the lowercased query as a substring;
when nothing matches, the query is truncated to the text before the
first dot (when it has one) and the scan is retried; when nothing
matches after that either, the lookup reports not-found. -/
theorem c7_fuzzy_lookup (mods : List ParsedModule) (q : List Char) :
    (∀ m, get_module mods q true = some m ↔
       (IsFirstFuzzyMatch q mods m ∨
        (NoFuzzyMatch q mods ∧ IsFirstFuzzyMatch (fallback_query q) mods m))) ∧
    (get_module mods q true = none ↔
       (NoFuzzyMatch q mods ∧ NoFuzzyMatch (fallback_query q) mods)) := by
  have hget : get_module mods q true =
      match first_fuzzy_match q mods with
      | some m => some m
      | none => first_fuzzy_match (fallback_query q) mods := by
    unfold get_module fallback_query
    rfl
  cases h : first_fuzzy_match q mods with
  | some x =>
    have hx := (first_fuzzy_match_eq_some q mods x).mp h
    constructor
    · intro m
      rw [hget, h]
      constructor
      · intro hm
        obtain rfl : x = m := Option.some.inj hm
        exact Or.inl hx
      · rintro (hfirst | ⟨hnomatch, -⟩)
        · have := (first_fuzzy_match_eq_some q mods m).mpr hfirst
          rw [this] at h
          exact h.symm ▸ rfl
        · rw [(first_fuzzy_match_eq_none q mods).mpr hnomatch] at h
          exact Option.noConfusion h
    · rw [hget, h]
      constructor
      · intro hc
        exact Option.noConfusion hc
      · rintro ⟨hnomatch, -⟩
        rw [(first_fuzzy_match_eq_none q mods).mpr hnomatch] at h
        exact Option.noConfusion h
  | none =>
    have hno := (first_fuzzy_match_eq_none q mods).mp h
    constructor
    · intro m
      rw [hget, h]
      constructor
      · intro hm
        exact Or.inr ⟨hno, (first_fuzzy_match_eq_some _ mods m).mp hm⟩
      · rintro (hfirst | ⟨-, hfirst⟩)
        · obtain ⟨pre, post, heq, hm, -⟩ := hfirst
          exact absurd hm (hno m (by rw [heq]; simp))
        · exact (first_fuzzy_match_eq_some _ mods m).mpr hfirst
    · rw [hget, h]
      rw [first_fuzzy_match_eq_none]
      constructor
      · intro hc
        exact ⟨hno, hc⟩
      · rintro ⟨-, hc⟩
        exact hc

/-- A module table with the single filename `MyBinary.exe`. -/
def modMyBinary : ParsedModule :=
  { id := 0, filename := strChars "MyBinary.exe", base := 0, end_ := 0,
    size := 0, checksum := 0, path := [], entry := 0 }

/-- Claim C7, witness: the query `mybinary` fuzzily resolves to the
module with filename `MyBinary.exe` (it is the first match). -/
theorem c7_fuzzy_lookup_witness :
    get_module [modMyBinary] (strChars "mybinary") true = some modMyBinary :=
  ((c7_fuzzy_lookup [modMyBinary] (strChars "mybinary")).1 modMyBinary).mpr
    (Or.inl ⟨[], [], rfl, by rfl,
      fun x hx => absurd hx (List.not_mem_nil x)⟩)

/-! ### Blocks-by-module (claim C8) -/

/-- Claim C8.  `get_blocks_by_module` raises (never returns an `ok`
list, empty or not) when the fuzzy lookup resolves no module; when the
lookup resolves module `m`, it returns exactly the blocks whose
`mod_id` equals `m.id`. -/
theorem c8_blocks_require_resolution (mods : List ParsedModule)
    (blocks : List ParsedBasicBlock) (q : List Char) :
    (get_module mods q true = none →
       get_blocks_by_module mods blocks q =
         Except.error (no_coverage_msg q) ∧
       ∀ l, get_blocks_by_module mods blocks q ≠ Except.ok l) ∧
    (∀ m, get_module mods q true = some m →
       get_blocks_by_module mods blocks q =
         Except.ok (blocks.filter (fun bb => ((bb.mod_id : Int) == m.id)))) := by
  constructor
  · intro h
    have he : get_blocks_by_module mods blocks q =
        Except.error (no_coverage_msg q) := by
      unfold get_blocks_by_module
      rw [h]
    refine ⟨he, fun l hl => ?_⟩
    rw [he] at hl
    exact Except.noConfusion hl
  · intro m h
    unfold get_blocks_by_module
    rw [h]

/-- Claim C8, witness: on an empty module table the query `x` resolves
to nothing and the call errors out. -/
theorem c8_blocks_require_resolution_witness :
    get_blocks_by_module [] [] (strChars "x") =
      Except.error (no_coverage_msg (strChars "x")) :=
  ((c8_blocks_require_resolution [] [] (strChars "x")).1 (by rfl)).1

/-! ### Filename derivation (claim C9) -/

/-- The head of a `dropWhile` result never satisfies the predicate. -/
theorem head?_dropWhile_not {α : Type} (p : α → Bool) (l : List α) (a : α)
    (h : (l.dropWhile p).head? = some a) : p a = false := by
  induction l with
  | nil => simp [List.dropWhile] at h
  | cons x xs ih =>
    rw [List.dropWhile_cons] at h
    by_cases hp : p x
    · exact ih (by simpa [hp] using h)
    · simp only [hp, if_false] at h
      simp at h
      subst h
      simpa using hp

/-- Membership in the one-element strip set. -/
theorem quote_contains_iff (c : Char) :
    ([quoteChar].contains c = true) ↔ c = quoteChar := by
  simp [List.contains, eq_comm]

/-- The predicate `strip("'")` tests each end character against. -/
def isQuote (c : Char) : Bool := [quoteChar].contains c

/-- `isQuote` holds exactly on the quote character. -/
theorem isQuote_iff (c : Char) : isQuote c = true ↔ c = quoteChar := by
  unfold isQuote
  exact quote_contains_iff c

/-- `pyStripChars` with the quote set, written with `isQuote`. -/
theorem pyStripChars_quote_eq (s : List Char) :
    pyStripChars [quoteChar] s =
      ((s.dropWhile isQuote).reverse.dropWhile isQuote).reverse := rfl

/-- A list of characters all satisfying `isQuote` is a run of quotes. -/
theorem all_quote_replicate (l : List Char)
    (hl : ∀ x ∈ l, isQuote x = true) :
    l = List.replicate l.length quoteChar :=
  List.eq_replicate_of_mem (fun x hx => (isQuote_iff x).mp (hl x hx))

/-- Splitting any list around its trailing `isQuote` run. -/
theorem split_trailing_quotes (l : List Char) :
    l = (l.reverse.dropWhile isQuote).reverse ++
      (l.reverse.takeWhile isQuote).reverse := by
  have h3 := congrArg List.reverse
    (List.takeWhile_append_dropWhile isQuote l.reverse)
  rw [List.reverse_append, List.reverse_reverse] at h3
  exact h3.symm

/-- `strip("'")` decomposition: the original string is some leading
quotes, then the stripped core, then some trailing quotes; the core
touches no quote at either end. -/
theorem pyStripChars_decomp (s : List Char) :
    ∃ a b, s = List.replicate a quoteChar ++ pyStripChars [quoteChar] s ++
        List.replicate b quoteChar ∧
      (pyStripChars [quoteChar] s).head? ≠ some quoteChar ∧
      (pyStripChars [quoteChar] s).getLast? ≠ some quoteChar := by
  rw [pyStripChars_quote_eq]
  have htk : s.takeWhile isQuote =
      List.replicate (s.takeWhile isQuote).length quoteChar :=
    all_quote_replicate _ (fun x hx => List.mem_takeWhile_imp hx)
  have htr : ((s.dropWhile isQuote).reverse.takeWhile isQuote).reverse =
      List.replicate
        ((s.dropWhile isQuote).reverse.takeWhile isQuote).length quoteChar :=
    calc ((s.dropWhile isQuote).reverse.takeWhile isQuote).reverse
        = (List.replicate
            ((s.dropWhile isQuote).reverse.takeWhile isQuote).length
            quoteChar).reverse :=
          congrArg List.reverse
            (all_quote_replicate _ (fun x hx => List.mem_takeWhile_imp hx))
      _ = List.replicate
            ((s.dropWhile isQuote).reverse.takeWhile isQuote).length
            quoteChar := List.reverse_replicate _ _
  refine ⟨(s.takeWhile isQuote).length,
    ((s.dropWhile isQuote).reverse.takeWhile isQuote).length, ?_, ?_, ?_⟩
  · calc s = s.takeWhile isQuote ++ s.dropWhile isQuote :=
            (List.takeWhile_append_dropWhile isQuote s).symm
      _ = s.takeWhile isQuote ++
            (((s.dropWhile isQuote).reverse.dropWhile isQuote).reverse ++
              ((s.dropWhile isQuote).reverse.takeWhile isQuote).reverse) :=
            congrArg _ (split_trailing_quotes (s.dropWhile isQuote))
      _ = (s.takeWhile isQuote ++
            ((s.dropWhile isQuote).reverse.dropWhile isQuote).reverse) ++
              ((s.dropWhile isQuote).reverse.takeWhile isQuote).reverse :=
            (List.append_assoc _ _ _).symm
      _ = (List.replicate (s.takeWhile isQuote).length quoteChar ++
            ((s.dropWhile isQuote).reverse.dropWhile isQuote).reverse) ++
              List.replicate
                ((s.dropWhile isQuote).reverse.takeWhile isQuote).length
                quoteChar :=
            congrArg₂ (fun x y =>
              (x ++ ((s.dropWhile isQuote).reverse.dropWhile isQuote).reverse)
                ++ y) htk htr
  · intro hhead
    cases hc : ((s.dropWhile isQuote).reverse.dropWhile isQuote).reverse with
    | nil =>
      rw [hc] at hhead
      exact Option.noConfusion hhead
    | cons c rest =>
      rw [hc] at hhead
      obtain rfl : c = quoteChar := by simpa using hhead
      have hdh : (s.dropWhile isQuote).head? = some quoteChar := by
        conv_lhs =>
          rw [split_trailing_quotes (s.dropWhile isQuote), hc]
        rfl
      have hq := head?_dropWhile_not isQuote s quoteChar hdh
      rw [(isQuote_iff quoteChar).mpr rfl] at hq
      exact Bool.noConfusion hq
  · intro hlast
    rw [← List.head?_reverse, List.reverse_reverse] at hlast
    have hq := head?_dropWhile_not isQuote (s.dropWhile isQuote).reverse
      quoteChar hlast
    rw [(isQuote_iff quoteChar).mpr rfl] at hq
    exact Bool.noConfusion hq

/-- Claim C9 counterexample.  The claim says a final path component not
surrounded by a matching quote pair is kept unchanged.  On the v1 line
`0, 4096, dir/'abc` — whose component `'abc` has a quote on the left
end only — the decoder nevertheless strips it, producing `abc` instead
of the unchanged `'abc`. -/
theorem c9_one_sided_quote_stripped :
    (parse_module v1lineQuote 1).map (fun m => m.filename) =
      some (strChars "abc") ∧
    strChars "abc" ≠ quoteChar :: strChars "abc" := by
  refine ⟨by rfl, by decide⟩

/-- Claim C9, amended.  The decoded filename is the final path
component with all leading and all trailing quote characters removed —
each end stripped independently and to arbitrary depth; a component
with no quote at either end is kept unchanged (its quote prefix and
suffix below are empty). -/
theorem c9_filename_strips_all_quotes (data : List (List Nat))
    (m : DrcovModule)
    (h : parse_module_v1 data = some m ∨ parse_module_v2 data = some m) :
    ∃ a b, basename m.path =
        List.replicate a quoteChar ++ m.filename ++
          List.replicate b quoteChar ∧
      m.filename.head? ≠ some quoteChar ∧
      m.filename.getLast? ≠ some quoteChar := by
  have hf : m.filename = pyStripChars [quoteChar] (basename m.path) := by
    rcases h with h | h
    · unfold parse_module_v1 at h
      split at h
      · obtain rfl := Option.some.inj h
        rfl
      · exact absurd h (by simp)
    · unfold parse_module_v2 at h
      split at h
      · obtain rfl := Option.some.inj h
        rfl
      · exact absurd h (by simp)
  obtain ⟨a, b, hdecomp, h1, h2⟩ := pyStripChars_decomp (basename m.path)
  rw [← hf] at hdecomp h1 h2
  exact ⟨a, b, hdecomp, h1, h2⟩

/-- Claim C9 amended, witness: the v1 module parsed from
`0, 4096, dir/'abc`. -/
theorem c9_filename_strips_all_quotes_witness :
    ∃ a b, basename v1moduleQuote.path =
        List.replicate a quoteChar ++ v1moduleQuote.filename ++
          List.replicate b quoteChar ∧
      v1moduleQuote.filename.head? ≠ some quoteChar ∧
      v1moduleQuote.filename.getLast? ≠ some quoteChar :=
  c9_filename_strips_all_quotes v1fieldsQuote v1moduleQuote (Or.inl (by rfl))

end Drcov
